import Mathlib

/-!
# Verification of the GPS cost-utility and MDGPS step/cost-fusion code

Shallow embedding of `gps/algorithm/cost/cost_utils.py` and
`python/gps/algorithm/algorithm_mdgps.py`:

* `get_ramp_multiplier` — time-varying cost ramp weights (exact rationals in place
  of numpy floats; a raised `ValueError` or an out-of-bounds index becomes `none`).
* `evall1l2term`, `evallogl2term`, `evalasymetric`, `evalexp` — the four penalty
  shapes, over the reals (numpy `sqrt`/`log`/`exp` become `Real.sqrt` etc.).
* `AlgorithmMDGPS.compute_costs` — KL-penalty fusion over exact rational matrices.
* `AlgorithmMDGPS._stepadjust` — step-size adjustment; the external
  `traj_opt.estimate_cost` oracle results are taken as inputs, and the parent-class
  `_set_new_mult` (not part of the excerpted sources) is modelled from the spec.
-/

namespace GPS

def RAMP_CONSTANT : ℕ := 1

def RAMP_LINEAR : ℕ := 2

def RAMP_QUADRATIC : ℕ := 3

def RAMP_FINAL_ONLY : ℕ := 4

/-- The vector `wpm` built by the `if`/`elif` chain of `get_ramp_multiplier`,
before the final `wpm[-1] *= wp_final_multiplier` line; the `else` branch raises
`ValueError`, which we model as `none`. -/
def ramp_base (ramp_option T : ℕ) : Option (List ℚ) :=
  if ramp_option = RAMP_CONSTANT then
    some (List.replicate T 1)
  else if ramp_option = RAMP_LINEAR then
    some ((List.range T).map fun t : ℕ => ((t : ℚ) + 1) / (T : ℚ))
  else if ramp_option = RAMP_QUADRATIC then
    some ((List.range T).map fun t : ℕ => (((t : ℚ) + 1) / (T : ℚ)) ^ 2)
  else if ramp_option = RAMP_FINAL_ONLY then
    some ((List.range T).map fun t => if t = T - 1 then (1 : ℚ) else 0)
  else
    none

/-- `get_ramp_multiplier(ramp_option, T, wp_final_multiplier)`: the ramp vector with
its last entry scaled by `wp_final_multiplier`. Indexing `wpm[-1]` (and, in the
`RAMP_FINAL_ONLY` branch, `wpm[T - 1]`) on an empty array raises in numpy, which we
model as `none` when `T = 0`. -/
def get_ramp_multiplier (ramp_option T : ℕ) (wp_final_multiplier : ℚ) : Option (List ℚ) :=
  (ramp_base ramp_option T).bind fun wpm =>
    if T = 0 then none
    else some (wpm.set (T - 1) (wpm.getD (T - 1) 0 * wp_final_multiplier))

/-- `np.sum(Jd * np.expand_dims(d1, axis=2), axis=1)` — gradient assembly shared by
all four penalty shapes. -/
noncomputable def costlx {D Dx : ℕ} (Jd : Fin D → Fin Dx → ℝ) (d1 : Fin D → ℝ)
    (a : Fin Dx) : ℝ :=
  ∑ i, Jd i a * d1 i

/-- Hessian assembly shared by all four penalty shapes: the double contraction of
`d2` with `Jd ⊗ Jd` plus the symmetrized chain-rule term `0.5 * sec + 0.5 * sec.T`
with `sec = np.sum(d1 * Jdd, axis=1)`. -/
noncomputable def costlxx {D Dx : ℕ} (Jd : Fin D → Fin Dx → ℝ)
    (Jdd : Fin D → Fin Dx → Fin Dx → ℝ) (d1 : Fin D → ℝ) (d2 : Fin D → Fin D → ℝ) :
    Matrix (Fin Dx) (Fin Dx) ℝ :=
  Matrix.of fun a b =>
    (∑ i, ∑ j, Jd i a * Jd j b * d2 i j)
      + 0.5 * (∑ i, d1 i * Jdd i a b) + 0.5 * (∑ i, d1 i * Jdd i b a)

/-- `psq` of `evall1l2term`: `np.sqrt(alpha + np.sum(dscl**2))` for one timestep. -/
noncomputable def l1l2_psq {D : ℕ} (wp d : Fin D → ℝ) (alpha : ℝ) : ℝ :=
  Real.sqrt (alpha + ∑ i, (d i * wp i) ^ 2)

/-- Per-timestep loss of `evall1l2term`:
`0.5 * np.sum(dsclsq**2) * l2 + np.sqrt(alpha + np.sum(dscl**2)) * l1`. -/
noncomputable def l1l2_l {D : ℕ} (wp d : Fin D → ℝ) (l1 l2 alpha : ℝ) : ℝ :=
  0.5 * (∑ i, (d i * Real.sqrt (wp i)) ^ 2) * l2 + l1l2_psq wp d alpha * l1

/-- `d1` of `evall1l2term`: `dscl * l2 + dscls / psq * l1` for one timestep. -/
noncomputable def l1l2_d1 {D : ℕ} (wp d : Fin D → ℝ) (l1 l2 alpha : ℝ) (i : Fin D) : ℝ :=
  d i * wp i * l2 + d i * (wp i) ^ 2 / l1l2_psq wp d alpha * l1

/-- `d2` of `evall1l2term`:
`l1 * (eye * wp**2 / psq - dscls ⊗ dscls / psq**3) + l2 * (wp * eye)`. -/
noncomputable def l1l2_d2 {D : ℕ} (wp d : Fin D → ℝ) (l1 l2 alpha : ℝ) (i j : Fin D) : ℝ :=
  l1 * ((if i = j then (1 : ℝ) else 0) * (wp j) ^ 2 / l1l2_psq wp d alpha
      - (d i * (wp i) ^ 2) * (d j * (wp j) ^ 2) / (l1l2_psq wp d alpha) ^ 3)
    + l2 * (wp i * (if i = j then (1 : ℝ) else 0))

/-- `evall1l2term(wp, d, Jd, Jdd, l1, l2, alpha)`: per-timestep `(l, lx, lxx)` of the
combined l1/l2 penalty `0.5*l2*d^2 + l1*sqrt(alpha + d^2)`. -/
noncomputable def evall1l2term {T D Dx : ℕ} (wp d : Fin T → Fin D → ℝ)
    (Jd : Fin T → Fin D → Fin Dx → ℝ) (Jdd : Fin T → Fin D → Fin Dx → Fin Dx → ℝ)
    (l1 l2 alpha : ℝ) :
    (Fin T → ℝ) × (Fin T → Fin Dx → ℝ) × (Fin T → Matrix (Fin Dx) (Fin Dx) ℝ) :=
  (fun t => l1l2_l (wp t) (d t) l1 l2 alpha,
   fun t => costlx (Jd t) (l1l2_d1 (wp t) (d t) l1 l2 alpha),
   fun t => costlxx (Jd t) (Jdd t) (l1l2_d1 (wp t) (d t) l1 l2 alpha)
     (l1l2_d2 (wp t) (d t) l1 l2 alpha))

/-- `psq` of `evallogl2term`: `alpha + np.sum(dscl**2)` (no square root). -/
noncomputable def logl2_psq {D : ℕ} (wp d : Fin D → ℝ) (alpha : ℝ) : ℝ :=
  alpha + ∑ i, (d i * wp i) ^ 2

/-- Per-timestep loss of `evallogl2term`:
`0.5 * np.sum(dsclsq**2) * l2 + 0.5 * np.log(alpha + np.sum(dscl**2)) * l1`. -/
noncomputable def logl2_l {D : ℕ} (wp d : Fin D → ℝ) (l1 l2 alpha : ℝ) : ℝ :=
  0.5 * (∑ i, (d i * Real.sqrt (wp i)) ^ 2) * l2 + 0.5 * Real.log (logl2_psq wp d alpha) * l1

/-- `d1` of `evallogl2term`: `dscl * l2 + dscls / (alpha + sum) * l1`. -/
noncomputable def logl2_d1 {D : ℕ} (wp d : Fin D → ℝ) (l1 l2 alpha : ℝ) (i : Fin D) : ℝ :=
  d i * wp i * l2 + d i * (wp i) ^ 2 / logl2_psq wp d alpha * l1

/-- `d2` of `evallogl2term` (with the possibly-missing factor of 2 exactly as in the
source): `l1 * (eye * wp**2 / psq - dscls ⊗ dscls / psq**2) + l2 * (wp * eye)`. -/
noncomputable def logl2_d2 {D : ℕ} (wp d : Fin D → ℝ) (l1 l2 alpha : ℝ) (i j : Fin D) : ℝ :=
  l1 * ((if i = j then (1 : ℝ) else 0) * (wp j) ^ 2 / logl2_psq wp d alpha
      - (d i * (wp i) ^ 2) * (d j * (wp j) ^ 2) / (logl2_psq wp d alpha) ^ 2)
    + l2 * (wp i * (if i = j then (1 : ℝ) else 0))

/-- `evallogl2term(wp, d, Jd, Jdd, l1, l2, alpha)`: per-timestep `(l, lx, lxx)` of the
combined penalty `0.5*l2*d^2 + 0.5*l1*log(alpha + d^2)`. -/
noncomputable def evallogl2term {T D Dx : ℕ} (wp d : Fin T → Fin D → ℝ)
    (Jd : Fin T → Fin D → Fin Dx → ℝ) (Jdd : Fin T → Fin D → Fin Dx → Fin Dx → ℝ)
    (l1 l2 alpha : ℝ) :
    (Fin T → ℝ) × (Fin T → Fin Dx → ℝ) × (Fin T → Matrix (Fin Dx) (Fin Dx) ℝ) :=
  (fun t => logl2_l (wp t) (d t) l1 l2 alpha,
   fun t => costlx (Jd t) (logl2_d1 (wp t) (d t) l1 l2 alpha),
   fun t => costlxx (Jd t) (Jdd t) (logl2_d1 (wp t) (d t) l1 l2 alpha)
     (logl2_d2 (wp t) (d t) l1 l2 alpha))

/-- `skew` of `evalasymetric`: `np.square(wp) * np.square(np.sign(d) + alpha)`. -/
noncomputable def asym_skew {D : ℕ} (wp d : Fin D → ℝ) (alpha : ℝ) (i : Fin D) : ℝ :=
  (wp i) ^ 2 * (Real.sign (d i) + alpha) ^ 2

/-- `evalasymetric(wp, d, Jd, Jdd, alpha)`: per-timestep `(l, lx, lxx)` of the skewed
penalty `0.5 * d^2 * (sign(d) + alpha)^2`, with `d2 = skew * eye` and
`d1 = d * skew`. -/
noncomputable def evalasymetric {T D Dx : ℕ} (wp d : Fin T → Fin D → ℝ)
    (Jd : Fin T → Fin D → Fin Dx → ℝ) (Jdd : Fin T → Fin D → Fin Dx → Fin Dx → ℝ)
    (alpha : ℝ) :
    (Fin T → ℝ) × (Fin T → Fin Dx → ℝ) × (Fin T → Matrix (Fin Dx) (Fin Dx) ℝ) :=
  (fun t => 0.5 * ∑ i, (d t i) ^ 2 * asym_skew (wp t) (d t) alpha i,
   fun t => costlx (Jd t) (fun i => d t i * asym_skew (wp t) (d t) alpha i),
   fun t => costlxx (Jd t) (Jdd t) (fun i => d t i * asym_skew (wp t) (d t) alpha i)
     (fun i j => asym_skew (wp t) (d t) alpha i * (if i = j then (1 : ℝ) else 0)))

/-- `ex` of `evalexp`: `np.clip(np.exp(d * wp), 0, 1)`. -/
noncomputable def exp_ex {D : ℕ} (wp d : Fin D → ℝ) (i : Fin D) : ℝ :=
  min (max (Real.exp (d i * wp i)) 0) 1

/-- `evalexp(wp, d, Jd, Jdd)`: per-timestep `(l, lx, lxx)` of the exponential
penalty, with `l = sum(ex)`, `d1 = -wp * ex` and `d2 = wp**2 * ex * eye`, exactly
as in the source. -/
noncomputable def evalexp {T D Dx : ℕ} (wp d : Fin T → Fin D → ℝ)
    (Jd : Fin T → Fin D → Fin Dx → ℝ) (Jdd : Fin T → Fin D → Fin Dx → Fin Dx → ℝ) :
    (Fin T → ℝ) × (Fin T → Fin Dx → ℝ) × (Fin T → Matrix (Fin Dx) (Fin Dx) ℝ) :=
  (fun t => ∑ i, exp_ex (wp t) (d t) i,
   fun t => costlx (Jd t) (fun i => -(wp t i) * exp_ex (wp t) (d t) i),
   fun t => costlxx (Jd t) (Jdd t) (fun i => -(wp t i) * exp_ex (wp t) (d t) i)
     (fun i j => (wp t i) ^ 2 * exp_ex (wp t) (d t) i * (if i = j then (1 : ℝ) else 0)))

/-- Computable inverse of a square rational matrix, `det⁻¹ • adjugate`; used to
embed `np.linalg.solve(A, B) = A⁻¹ ⬝ B`. -/
def matInv {n : ℕ} (A : Matrix (Fin n) (Fin n) ℚ) : Matrix (Fin n) (Fin n) ℚ :=
  A.det⁻¹ • A.adjugate

/-- `np.linalg.solve(A, B)`: the solution `X` of `A X = B`, i.e. `A⁻¹ ⬝ B`. -/
def npSolve {n : ℕ} (A B : Matrix (Fin n) (Fin n) ℚ) : Matrix (Fin n) (Fin n) ℚ :=
  matInv A * B

/-- `inv_pol_S`: `np.linalg.solve(chol_pol_S[t], np.linalg.solve(chol_pol_S[t].T,
np.eye(dU)))`. -/
def inv_pol_S {dU : ℕ} (chol : Matrix (Fin dU) (Fin dU) ℚ) : Matrix (Fin dU) (Fin dU) ℚ :=
  npSolve chol (npSolve chol.transpose 1)

/-- `np.linalg.norm(M, np.inf)` for a 2-D array: the maximum absolute row sum. -/
def normInf {m n : ℕ} (A : Matrix (Fin m) (Fin n) ℚ) : ℚ :=
  (List.ofFn fun i : Fin m => ∑ j, |A i j|).foldr max 0

/-- The KL-penalty quadratic `PKLm[t]`:
`vstack([hstack([KB.T ⬝ S ⬝ KB, -KB.T ⬝ S]), hstack([-S ⬝ KB, S])])` with
`S = inv_pol_S`. -/
def PKLm {dX dU : ℕ} (S : Matrix (Fin dU) (Fin dU) ℚ) (KB : Matrix (Fin dU) (Fin dX) ℚ) :
    Matrix (Fin dX ⊕ Fin dU) (Fin dX ⊕ Fin dU) ℚ :=
  Matrix.fromBlocks (KB.transpose * S * KB) (-(KB.transpose * S)) (-(S * KB)) S

/-- The KL-penalty linear term `PKLv[t]`:
`concatenate([KB.T ⬝ S ⬝ kB, -S ⬝ kB])`. -/
def PKLv {dX dU : ℕ} (S : Matrix (Fin dU) (Fin dU) ℚ) (KB : Matrix (Fin dU) (Fin dX) ℚ)
    (kB : Fin dU → ℚ) : Fin dX ⊕ Fin dU → ℚ :=
  Sum.elim ((KB.transpose * S).mulVec kB) (-(S.mulVec kB))

/-- Per-timestep data consumed by `compute_costs` for condition `m`:
`traj_info.Cm[t]`, `traj_info.cv[t]`, `pol_info.chol_pol_S[t]`, `pol_info.pol_S[t]`,
`pol_info.pol_K[t]`, `pol_info.pol_k[t]` and `traj_distr.K[t]`. -/
structure CCInput (dX dU : ℕ) where
  Cm : Matrix (Fin dX ⊕ Fin dU) (Fin dX ⊕ Fin dU) ℚ
  cv : Fin dX ⊕ Fin dU → ℚ
  chol_pol_S : Matrix (Fin dU) (Fin dU) ℚ
  pol_S : Matrix (Fin dU) (Fin dU) ℚ
  pol_K : Matrix (Fin dU) (Fin dX) ℚ
  pol_k : Fin dU → ℚ
  K : Matrix (Fin dU) (Fin dX) ℚ

/-- Loop body of `compute_costs` for `fCm[t]`:
`(Cm[t] + K_regularization * norm(K[t], inf) * eye(dX+dU) + PKLm[t] * eta) / eta`. -/
def fCm_t {dX dU : ℕ} (x : CCInput dX dU) (Kreg eta : ℚ) :
    Matrix (Fin dX ⊕ Fin dU) (Fin dX ⊕ Fin dU) ℚ :=
  eta⁻¹ • (x.Cm + (Kreg * normInf x.K) • (1 : Matrix (Fin dX ⊕ Fin dU) (Fin dX ⊕ Fin dU) ℚ)
    + eta • PKLm (inv_pol_S x.chol_pol_S) x.pol_K)

/-- Loop body of `compute_costs` for `fcv[t]`: `(cv[t] + PKLv[t] * eta) / eta`. -/
def fcv_t {dX dU : ℕ} (x : CCInput dX dU) (eta : ℚ) : Fin dX ⊕ Fin dU → ℚ :=
  eta⁻¹ • (x.cv + eta • PKLv (inv_pol_S x.chol_pol_S) x.pol_K x.pol_k)

/-- `AlgorithmMDGPS.compute_costs(m, eta)`: the fused cost quadratics
`(fCm, fcv)` over the horizon. -/
def compute_costs {dX dU T : ℕ} (Kreg eta : ℚ) (inp : Fin T → CCInput dX dU) :
    (Fin T → Matrix (Fin dX ⊕ Fin dU) (Fin dX ⊕ Fin dU) ℚ) × (Fin T → Fin dX ⊕ Fin dU → ℚ) :=
  (fun t => fCm_t (inp t) Kreg eta, fun t => fcv_t (inp t) eta)

/-- Scaling the task-cost quadratics of a `compute_costs` input by `c` (the
hypothesis of the homogeneity claim). -/
def scaleCC {dX dU : ℕ} (c : ℚ) (x : CCInput dX dU) : CCInput dX dU :=
  { x with Cm := c • x.Cm, cv := c • x.cv }

/-- A concrete `compute_costs` input with `dX = dU = 1`: zero task cost, identity
Cholesky factor and covariance, zero fitted gain and bias, controller gain `1`. -/
def ccEx : CCInput 1 1 :=
  { Cm := 0, cv := 0, chol_pol_S := 1, pol_S := 1, pol_K := 0, pol_k := 0, K := 1 }

/-- Which step rule is configured: `step_rule` is selected from exactly
`{laplace, mc}`. -/
inductive StepRule
  | laplace
  | mc

/-- Previous-iteration data for one condition read by `_stepadjust`:
`estimate_cost(prev_nn, prev_traj_info).sum()`,
`estimate_cost(prev_lg, prev_traj_info).sum()`, and `prev[m].cs`. -/
structure PrevCond where
  laplace_est : ℚ
  predicted_est : ℚ
  cs : List (List ℚ)

/-- Current-iteration data for one condition read by `_stepadjust`:
`estimate_cost(cur_nn, cur_traj_info).sum()`, `cur[m].cs`, and the condition's
current step multiplier. -/
structure CurCond where
  laplace_est : ℚ
  cs : List (List ℚ)
  step_mult : ℚ

/-- `cs.mean(axis=0).sum()`: the mean over samples of the per-sample total cost. -/
def csMean (cs : List (List ℚ)) : ℚ :=
  (cs.map List.sum).sum / (cs.length : ℚ)

/-- `.mean()` over conditions of a vector of per-condition scalars. -/
def condMean (xs : List ℚ) : ℚ :=
  xs.sum / (xs.length : ℚ)

/-- `prev_laplace.mean()`. -/
def prev_laplace_avg (prev : List PrevCond) : ℚ :=
  condMean (prev.map PrevCond.laplace_est)

/-- `prev_mc.mean()` where `prev_mc[m] = prev[m].cs.mean(axis=0).sum()`. -/
def prev_mc_avg (prev : List PrevCond) : ℚ :=
  condMean (prev.map fun p => csMean p.cs)

/-- `prev_predicted.mean()`. -/
def prev_predicted_avg (prev : List PrevCond) : ℚ :=
  condMean (prev.map PrevCond.predicted_est)

/-- `cur_laplace.mean()`. -/
def cur_laplace_avg (cur : List CurCond) : ℚ :=
  condMean (cur.map CurCond.laplace_est)

/-- `cur_mc.mean()` where `cur_mc[m] = cur[m].cs.mean(axis=0).sum()`. -/
def cur_mc_avg (cur : List CurCond) : ℚ :=
  condMean (cur.map fun c => csMean c.cs)

/-- `predicted_impr` as selected by `step_rule`. -/
def predicted_impr (rule : StepRule) (prev : List PrevCond) : ℚ :=
  match rule with
  | .laplace => prev_laplace_avg prev - prev_predicted_avg prev
  | .mc => prev_mc_avg prev - prev_predicted_avg prev

/-- `actual_impr` as selected by `step_rule`. -/
def actual_impr (rule : StepRule) (prev : List PrevCond) (cur : List CurCond) : ℚ :=
  match rule with
  | .laplace => prev_laplace_avg prev - cur_laplace_avg cur
  | .mc => prev_mc_avg prev - cur_mc_avg cur

/-- Modelled from the spec: `Algorithm._set_new_mult` lives in the parent class
`Algorithm`, which is not among the excerpted sources. Per the spec, when
`actual_impr` underperforms `predicted_impr` the multiplier shrinks toward
`min_step_mult`, when it overperforms it grows toward `max_step_mult`, and it is
always clamped to `[min_step_mult, max_step_mult]`; the halving/doubling step is a
modelling choice for "shrink"/"grow". -/
def set_new_mult (predicted actual old min_step max_step : ℚ) : ℚ :=
  min max_step (max min_step (if actual < predicted then old / 2 else 2 * old))

/-- `AlgorithmMDGPS._stepadjust`: computes the condition-averaged improvement pair
and updates every condition's step multiplier with it, returning the new
multipliers. -/
def stepadjust (rule : StepRule) (prev : List PrevCond) (cur : List CurCond)
    (min_step max_step : ℚ) : List ℚ :=
  cur.map fun c =>
    set_new_mult (predicted_impr rule prev) (actual_impr rule prev cur)
      c.step_mult min_step max_step

/-- Previous-iteration data for a single condition with two samples. -/
def prevEx : List PrevCond := [⟨0, 8, [[5, 5], [5, 5]]⟩]

/-- Current-iteration data for that condition with only one sample (a sample-count
mismatch against `prevEx`) and step multiplier `1`. -/
def curEx : List CurCond := [⟨0, [[4, 5]], 1⟩]

/-- Constant weight array `wp = 1` at `T = D = 1`, used in concrete evaluations. -/
def wp1 : Fin 1 → Fin 1 → ℝ := fun _ _ => 1

/-- Constant Jacobian `Jd = 1` at `T = D = Dx = 1`. -/
def Jd1 : Fin 1 → Fin 1 → Fin 1 → ℝ := fun _ _ _ => 1

/-- Zero second Jacobian `Jdd = 0` at `T = D = Dx = 1`. -/
def Jdd0 : Fin 1 → Fin 1 → Fin 1 → Fin 1 → ℝ := fun _ _ _ _ => 0

/-- Constant residual `d = -1` at `T = D = 1`. -/
def dneg1 : Fin 1 → Fin 1 → ℝ := fun _ _ => -1

open Matrix

/-- Claim C9: any token other than the four defined ramp modes makes
`get_ramp_multiplier` raise (modelled as `none`), and each of the four defined
tokens returns normally for every horizon `T ≥ 1`. -/
theorem C9_ramp_dispatch (tok T : ℕ) (wfm : ℚ) :
    (tok ≠ RAMP_CONSTANT ∧ tok ≠ RAMP_LINEAR ∧ tok ≠ RAMP_QUADRATIC ∧ tok ≠ RAMP_FINAL_ONLY →
      get_ramp_multiplier tok T wfm = none) ∧
    (1 ≤ T →
      (tok = RAMP_CONSTANT ∨ tok = RAMP_LINEAR ∨ tok = RAMP_QUADRATIC ∨ tok = RAMP_FINAL_ONLY) →
      ∃ l, get_ramp_multiplier tok T wfm = some l) := by
  constructor
  · rintro ⟨h1, h2, h3, h4⟩
    simp [get_ramp_multiplier, ramp_base, h1, h2, h3, h4]
  · rintro hT (rfl | rfl | rfl | rfl) <;>
      simp [get_ramp_multiplier, ramp_base, RAMP_CONSTANT, RAMP_LINEAR, RAMP_QUADRATIC,
        RAMP_FINAL_ONLY, Nat.one_le_iff_ne_zero.mp hT]

/-- Witness for C9 at concrete inputs: token `7` is rejected and `RAMP_CONSTANT`
returns normally at `T = 3`. -/
theorem C9_witness :
    ((7 ≠ RAMP_CONSTANT ∧ 7 ≠ RAMP_LINEAR ∧ 7 ≠ RAMP_QUADRATIC ∧ 7 ≠ RAMP_FINAL_ONLY) ∧
      get_ramp_multiplier 7 3 2 = none) ∧
    (1 ≤ 3 ∧ ∃ l, get_ramp_multiplier RAMP_CONSTANT 3 2 = some l) :=
  ⟨⟨by decide, (C9_ramp_dispatch 7 3 2).1 (by decide)⟩,
   ⟨by decide, (C9_ramp_dispatch RAMP_CONSTANT 3 2).2 (by decide) (Or.inl rfl)⟩⟩

/-- Counterexample to claim C3 as stated: with `RAMP_CONSTANT`, `T = 2` and
`wp_final_multiplier = 2` the returned weights are not uniformly `1` — the final
`wpm[-1] *= wp_final_multiplier` line applies to every ramp mode, so the last
weight is `2`. -/
theorem C3_counterexample :
    ((get_ramp_multiplier RAMP_CONSTANT 2 2).getD []).getD 1 0 ≠ 1 := by
  norm_num [get_ramp_multiplier, ramp_base, RAMP_CONSTANT, List.replicate]

/-- Evaluation of the `RAMP_CONSTANT` branch of the ramp dispatch. -/
lemma ramp_base_constant (T : ℕ) : ramp_base RAMP_CONSTANT T = some (List.replicate T 1) := rfl

/-- Evaluation of the `RAMP_LINEAR` branch of the ramp dispatch. -/
lemma ramp_base_linear (T : ℕ) :
    ramp_base RAMP_LINEAR T = some ((List.range T).map fun t : ℕ => ((t : ℚ) + 1) / (T : ℚ)) := rfl

/-- Evaluation of the `RAMP_FINAL_ONLY` branch of the ramp dispatch. -/
lemma ramp_base_final_only (T : ℕ) :
    ramp_base RAMP_FINAL_ONLY T =
      some ((List.range T).map fun t => if t = T - 1 then (1 : ℚ) else 0) := rfl

lemma get_ramp_multiplier_eq (tok T : ℕ) (wfm : ℚ) (l : List ℚ) (h : ramp_base tok T = some l)
    (hT0 : T ≠ 0) :
    get_ramp_multiplier tok T wfm = some (l.set (T - 1) (l.getD (T - 1) 0 * wfm)) := by
  simp [get_ramp_multiplier, h, hT0]

/-- Claim C3 (amended): for every `T ≥ 1`, `RAMP_CONSTANT` yields weight `1` at
every step except the last, whose weight is `wp_final_multiplier` (so uniform `1`
exactly when `wp_final_multiplier = 1`); `RAMP_FINAL_ONLY` yields `0` everywhere
except the last step, whose weight is `wp_final_multiplier`; and the `RAMP_LINEAR`
weight at `t = T - 1`, before the final-step multiplier is applied, equals `1`. -/
theorem C3_ramp_values (T : ℕ) (hT : 1 ≤ T) (wfm : ℚ) (t : ℕ) (ht : t < T) :
    ((get_ramp_multiplier RAMP_CONSTANT T wfm).getD []).getD t 0 =
      (if t = T - 1 then wfm else 1) ∧
    ((get_ramp_multiplier RAMP_FINAL_ONLY T wfm).getD []).getD t 0 =
      (if t = T - 1 then wfm else 0) ∧
    ((ramp_base RAMP_LINEAR T).getD []).getD (T - 1) 0 = 1 := by
  have hT0 : T ≠ 0 := Nat.one_le_iff_ne_zero.mp hT
  have hT1 : T - 1 < T := by omega
  refine ⟨?_, ?_, ?_⟩
  · rw [get_ramp_multiplier_eq _ _ _ _ (ramp_base_constant T) hT0, Option.getD_some]
    have hbase : (List.replicate T (1 : ℚ)).getD (T - 1) 0 = 1 := by
      rw [List.getD_eq_getElem?_getD, List.getElem?_eq_getElem (by simpa using hT1)]
      simp
    rw [hbase, one_mul]
    by_cases h : t = T - 1
    · subst h
      rw [if_pos rfl, List.getD_eq_getElem?_getD,
        List.getElem?_set_eq_of_lt _ (by simpa using hT1)]
      rfl
    · rw [if_neg h, List.getD_eq_getElem?_getD, List.getElem?_set_ne (Ne.symm h),
        List.getElem?_eq_getElem (by simpa using ht)]
      simp
  · rw [get_ramp_multiplier_eq _ _ _ _ (ramp_base_final_only T) hT0, Option.getD_some]
    have hbase : (((List.range T).map fun u => if u = T - 1 then (1 : ℚ) else 0).getD
        (T - 1) 0) = 1 := by
      rw [List.getD_eq_getElem?_getD, List.getElem?_eq_getElem (by simpa using hT1)]
      simp
    rw [hbase, one_mul]
    by_cases h : t = T - 1
    · subst h
      rw [if_pos rfl, List.getD_eq_getElem?_getD,
        List.getElem?_set_eq_of_lt _ (by simpa using hT1)]
      rfl
    · rw [if_neg h, List.getD_eq_getElem?_getD, List.getElem?_set_ne (Ne.symm h),
        List.getElem?_eq_getElem (by simpa using ht)]
      simp [h]
  · rw [ramp_base_linear T, Option.getD_some]
    rw [List.getD_eq_getElem?_getD,
      List.getElem?_eq_getElem (by rw [List.length_map, List.length_range]; exact hT1)]
    have hc : ((T - 1 : ℕ) : ℚ) + 1 = (T : ℚ) := by
      rw [Nat.cast_pred (Nat.lt_of_lt_of_le Nat.zero_lt_one hT)]
      ring
    simp only [List.getElem_map, List.getElem_range, Option.getD_some]
    rw [hc, div_self (by exact_mod_cast hT0)]

/-- Witness for C3 at `T = 3`, `wp_final_multiplier = 5`, `t = 1`. -/
theorem C3_witness :
    1 ≤ 3 ∧ (1 : ℕ) < 3 ∧
    (((get_ramp_multiplier RAMP_CONSTANT 3 5).getD []).getD 1 0 =
        (if (1 : ℕ) = 3 - 1 then (5 : ℚ) else 1) ∧
      ((get_ramp_multiplier RAMP_FINAL_ONLY 3 5).getD []).getD 1 0 =
        (if (1 : ℕ) = 3 - 1 then (5 : ℚ) else 0) ∧
      ((ramp_base RAMP_LINEAR 3).getD []).getD (3 - 1) 0 = 1) :=
  ⟨by decide, by decide, C3_ramp_values 3 (by decide) 5 1 (by decide)⟩

/-- The double contraction `sum_i sum_j Jd[i,a] * Jd[j,b] * d2[i,j]` is symmetric in
`(a, b)` whenever `d2` is a symmetric kernel. -/
lemma contraction_swap {D Dx : ℕ} (Jd : Fin D → Fin Dx → ℝ) (d2 : Fin D → Fin D → ℝ)
    (hsymm : ∀ i j, d2 i j = d2 j i) (a b : Fin Dx) :
    ∑ i, ∑ j, Jd i b * Jd j a * d2 i j = ∑ i, ∑ j, Jd i a * Jd j b * d2 i j := by
  rw [Finset.sum_comm]
  refine Finset.sum_congr rfl fun i _ => Finset.sum_congr rfl fun j _ => ?_
  rw [hsymm j i]
  ring

/-- `costlxx` produces a symmetric matrix whenever its `d2` kernel is symmetric,
thanks to the `0.5 * sec + 0.5 * sec.T` symmetrization of the chain-rule term. -/
lemma costlxx_symm {D Dx : ℕ} (Jd : Fin D → Fin Dx → ℝ)
    (Jdd : Fin D → Fin Dx → Fin Dx → ℝ) (d1 : Fin D → ℝ) (d2 : Fin D → Fin D → ℝ)
    (hsymm : ∀ i j, d2 i j = d2 j i) :
    (costlxx Jd Jdd d1 d2)ᵀ = costlxx Jd Jdd d1 d2 := by
  ext a b
  simp only [Matrix.transpose_apply, costlxx, Matrix.of_apply]
  rw [contraction_swap Jd d2 hsymm a b]
  ring

/-- The `d2` kernel of `evall1l2term` is symmetric. -/
lemma l1l2_d2_symm {D : ℕ} (wp d : Fin D → ℝ) (l1 l2 alpha : ℝ) (i j : Fin D) :
    l1l2_d2 wp d l1 l2 alpha i j = l1l2_d2 wp d l1 l2 alpha j i := by
  unfold l1l2_d2
  by_cases h : i = j
  · subst h; ring
  · simp only [if_neg h, if_neg (Ne.symm h)]
    ring

/-- The `d2` kernel of `evallogl2term` is symmetric. -/
lemma logl2_d2_symm {D : ℕ} (wp d : Fin D → ℝ) (l1 l2 alpha : ℝ) (i j : Fin D) :
    logl2_d2 wp d l1 l2 alpha i j = logl2_d2 wp d l1 l2 alpha j i := by
  unfold logl2_d2
  by_cases h : i = j
  · subst h; ring
  · simp only [if_neg h, if_neg (Ne.symm h)]
    ring

/-- Claim C6: for each of the four penalty shapes and every input and timestep, the
returned Hessian `lxx[t]` equals its own transpose (exactly, in real arithmetic). -/
theorem C6_hessian_symmetric {T D Dx : ℕ} (wp d : Fin T → Fin D → ℝ)
    (Jd : Fin T → Fin D → Fin Dx → ℝ) (Jdd : Fin T → Fin D → Fin Dx → Fin Dx → ℝ)
    (l1 l2 alpha : ℝ) (t : Fin T) :
    ((evall1l2term wp d Jd Jdd l1 l2 alpha).2.2 t)ᵀ =
      (evall1l2term wp d Jd Jdd l1 l2 alpha).2.2 t ∧
    ((evallogl2term wp d Jd Jdd l1 l2 alpha).2.2 t)ᵀ =
      (evallogl2term wp d Jd Jdd l1 l2 alpha).2.2 t ∧
    ((evalasymetric wp d Jd Jdd alpha).2.2 t)ᵀ =
      (evalasymetric wp d Jd Jdd alpha).2.2 t ∧
    ((evalexp wp d Jd Jdd).2.2 t)ᵀ = (evalexp wp d Jd Jdd).2.2 t := by
  refine ⟨?_, ?_, ?_, ?_⟩
  · exact costlxx_symm _ _ _ _ (l1l2_d2_symm (wp t) (d t) l1 l2 alpha)
  · exact costlxx_symm _ _ _ _ (logl2_d2_symm (wp t) (d t) l1 l2 alpha)
  · refine costlxx_symm _ _ _ _ fun i j => ?_
    by_cases h : i = j
    · subst h; rfl
    · simp [if_neg h, if_neg (Ne.symm h)]
  · refine costlxx_symm _ _ _ _ fun i j => ?_
    by_cases h : i = j
    · subst h; rfl
    · simp [if_neg h, if_neg (Ne.symm h)]

/-- Claim C7: at residual `d = 0` with `alpha > 0`, all four penalty shapes return a
finite loss and a finite gradient; for the l1/l2, log-l2 and asymmetric shapes the
gradient is the analytic value (zero, since `d1` vanishes at `d = 0`), and for the
exponential shape loss and gradient are the analytic values `D` and
`-sum_i wp[t,i] * Jd[t,i,:]`. -/
theorem C7_finite_at_zero {T D Dx : ℕ} (wp : Fin T → Fin D → ℝ)
    (Jd : Fin T → Fin D → Fin Dx → ℝ) (Jdd : Fin T → Fin D → Fin Dx → Fin Dx → ℝ)
    (l1 l2 alpha : ℝ) (t : Fin T) (a : Fin Dx) (halpha : 0 < alpha) :
    (evall1l2term wp 0 Jd Jdd l1 l2 alpha).1 t = Real.sqrt alpha * l1 ∧
    (evall1l2term wp 0 Jd Jdd l1 l2 alpha).2.1 t a = 0 ∧
    (evallogl2term wp 0 Jd Jdd l1 l2 alpha).1 t = 0.5 * Real.log alpha * l1 ∧
    (evallogl2term wp 0 Jd Jdd l1 l2 alpha).2.1 t a = 0 ∧
    (evalasymetric wp 0 Jd Jdd alpha).1 t = 0 ∧
    (evalasymetric wp 0 Jd Jdd alpha).2.1 t a = 0 ∧
    (evalexp wp 0 Jd Jdd).1 t = (D : ℝ) ∧
    (evalexp wp 0 Jd Jdd).2.1 t a = -∑ i, wp t i * Jd t i a := by
  have hex : ∀ i : Fin D, exp_ex (wp t) (0 : Fin D → ℝ) i = 1 := by
    intro i
    simp [exp_ex]
  refine ⟨?_, ?_, ?_, ?_, ?_, ?_, ?_, ?_⟩
  · simp [evall1l2term, l1l2_l, l1l2_psq]
  · simp [evall1l2term, costlx, l1l2_d1]
  · simp [evallogl2term, logl2_l, logl2_psq]
  · simp [evallogl2term, costlx, logl2_d1]
  · simp [evalasymetric]
  · simp [evalasymetric, costlx]
  · simp [evalexp, hex]
  · simp only [evalexp, costlx, hex]
    rw [← Finset.sum_neg_distrib]
    refine Finset.sum_congr rfl fun i _ => ?_
    simp only [Pi.zero_apply]
    rw [hex i]
    ring

/-- Witness for C7 at `T = D = Dx = 1`, `wp = Jd = 1`, `Jdd = 0`,
`l1 = l2 = 1`, `alpha = 1`. -/
theorem C7_witness :
    (0 : ℝ) < 1 ∧
    ((evall1l2term wp1 0 Jd1 Jdd0 1 1 1).1 0 = Real.sqrt 1 * 1 ∧
      (evall1l2term wp1 0 Jd1 Jdd0 1 1 1).2.1 0 0 = 0 ∧
      (evallogl2term wp1 0 Jd1 Jdd0 1 1 1).1 0 = 0.5 * Real.log 1 * 1 ∧
      (evallogl2term wp1 0 Jd1 Jdd0 1 1 1).2.1 0 0 = 0 ∧
      (evalasymetric wp1 0 Jd1 Jdd0 1).1 0 = 0 ∧
      (evalasymetric wp1 0 Jd1 Jdd0 1).2.1 0 0 = 0 ∧
      (evalexp wp1 0 Jd1 Jdd0).1 0 = ((1 : ℕ) : ℝ) ∧
      (evalexp wp1 0 Jd1 Jdd0).2.1 0 0 =
        -∑ i : Fin 1, wp1 0 i * Jd1 0 i 0) :=
  ⟨zero_lt_one, C7_finite_at_zero wp1 Jd1 Jdd0 1 1 1 0 0 zero_lt_one⟩

/-- Claim C8 (refuted, code bug): at `wp = 1`, `d = -1`, `Jd = 1`, `Jdd = 0`
(`T = D = Dx = 1`, clip inactive since `exp(-1) < 1`), `evalexp` returns the
gradient `-exp(-1)`, the **negative** of the chain-rule derivative `exp(-1)` of its
documented loss `exp(d*wp)`; the two differ. -/
theorem C8_counterexample :
    (evalexp wp1 dneg1 Jd1 Jdd0).2.1 0 0 = -Real.exp (-1) ∧
    -Real.exp (-1) ≠ Real.exp (-1) := by
  constructor
  · have hexp1 : Real.exp (-1) ≤ 1 := (Real.exp_lt_one_iff.mpr (by norm_num)).le
    have hex : exp_ex (wp1 0) (dneg1 0) 0 = Real.exp (-1) := by
      simp [exp_ex, wp1, dneg1, max_eq_left (Real.exp_pos (-1)).le, min_eq_left hexp1]
    simp only [evalexp, costlx, Fin.sum_univ_one]
    rw [hex]
    simp [wp1, Jd1]
  · intro h
    have h2 : (0 : ℝ) < Real.exp (-1) := Real.exp_pos _
    nlinarith

/-- The computable rational matrix inverse agrees with the Mathlib nonsingular
inverse. -/
lemma matInv_eq_inv {n : ℕ} (A : Matrix (Fin n) (Fin n) ℚ) : matInv A = A⁻¹ := by
  rw [matInv, Matrix.inv_def, Ring.inverse_eq_inv']

/-- The two triangular solves of `compute_costs` equal the inverse of
`cholᵀ * chol`. -/
lemma inv_pol_S_eq {dU : ℕ} (chol : Matrix (Fin dU) (Fin dU) ℚ) :
    inv_pol_S chol = (chol.transpose * chol)⁻¹ := by
  rw [inv_pol_S, npSolve, npSolve, matInv_eq_inv, matInv_eq_inv, Matrix.mul_one,
    Matrix.mul_inv_rev]

/-- Claim C1: for every timestep, every `eta > 0` and every invertible upper
triangular factor with `chol_pol_S[t]ᵀ * chol_pol_S[t] = pol_S[t]`, `compute_costs`
returns `fCm[t] = (Cm[t] + K_regularization * norm(K[t], inf) * I + eta * PKLm[t]) / eta`
and `fcv[t] = (cv[t] + eta * PKLv[t]) / eta`, where the KL terms are built from the
gain `pol_K[t]`, the bias `pol_k[t]` and the inverse `pol_S[t]⁻¹` of the fitted
policy covariance. -/
theorem C1_compute_costs_formula {dX dU T : ℕ} (Kreg eta : ℚ) (inp : Fin T → CCInput dX dU)
    (t : Fin T) (heta : 0 < eta)
    (hdet : (inp t).chol_pol_S.det ≠ 0)
    (htri : ∀ i j : Fin dU, (j : ℕ) < (i : ℕ) → (inp t).chol_pol_S i j = 0)
    (hchol : (inp t).chol_pol_S.transpose * (inp t).chol_pol_S = (inp t).pol_S) :
    (compute_costs Kreg eta inp).1 t =
      eta⁻¹ • ((inp t).Cm
        + (Kreg * normInf (inp t).K) • (1 : Matrix (Fin dX ⊕ Fin dU) (Fin dX ⊕ Fin dU) ℚ)
        + eta • PKLm (matInv (inp t).pol_S) (inp t).pol_K) ∧
    (compute_costs Kreg eta inp).2 t =
      eta⁻¹ • ((inp t).cv + eta • PKLv (matInv (inp t).pol_S) (inp t).pol_K (inp t).pol_k) := by
  have hS : inv_pol_S (inp t).chol_pol_S = matInv (inp t).pol_S := by
    rw [inv_pol_S_eq, hchol, matInv_eq_inv]
  constructor
  · show fCm_t (inp t) Kreg eta = _
    simp only [fCm_t, hS]
  · show fcv_t (inp t) eta = _
    simp only [fcv_t, hS]

/-- Witness for C1 at `ccEx`, `K_regularization = 1`, `eta = 1`. -/
theorem C1_witness :
    (0 : ℚ) < 1 ∧ (ccEx.chol_pol_S.det ≠ 0) ∧
    (∀ i j : Fin 1, (j : ℕ) < (i : ℕ) → ccEx.chol_pol_S i j = 0) ∧
    (ccEx.chol_pol_S.transpose * ccEx.chol_pol_S = ccEx.pol_S) ∧
    ((compute_costs 1 1 (fun _ : Fin 1 => ccEx)).1 0 =
      (1 : ℚ)⁻¹ • (ccEx.Cm
        + ((1 : ℚ) * normInf ccEx.K) • (1 : Matrix (Fin 1 ⊕ Fin 1) (Fin 1 ⊕ Fin 1) ℚ)
        + (1 : ℚ) • PKLm (matInv ccEx.pol_S) ccEx.pol_K) ∧
     (compute_costs 1 1 (fun _ : Fin 1 => ccEx)).2 0 =
      (1 : ℚ)⁻¹ • (ccEx.cv + (1 : ℚ) • PKLv (matInv ccEx.pol_S) ccEx.pol_K ccEx.pol_k)) :=
  ⟨zero_lt_one, by simp [ccEx], by decide, by simp [ccEx],
   C1_compute_costs_formula 1 1 (fun _ : Fin 1 => ccEx) 0 zero_lt_one
     (by simp [ccEx]) (by decide) (by simp [ccEx])⟩

/-- The computable inverse of the identity matrix is the identity. -/
lemma matInv_one {n : ℕ} : matInv (1 : Matrix (Fin n) (Fin n) ℚ) = 1 := by
  simp [matInv]

/-- The triangular solves at an identity Cholesky factor give the identity. -/
lemma inv_pol_S_one {n : ℕ} : inv_pol_S (1 : Matrix (Fin n) (Fin n) ℚ) = 1 := by
  simp [inv_pol_S, npSolve, matInv_one]

/-- The infinity norm of the 1-by-1 identity gain matrix. -/
lemma normInf_one_fin1 : normInf (1 : Matrix (Fin 1) (Fin 1) ℚ) = 1 := by
  simp [normInf, List.ofFn_succ, List.ofFn_zero, Fin.sum_univ_one]

/-- Counterexample to claim C2 as stated: at `ccEx` with `K_regularization = 1`,
scaling the task cost by `c = 2` and `eta` by the same `c` changes `fCm` — the
small-gain regularizer `K_regularization * norm(K, inf) * I` is not scaled by `c`,
so the `(Sum.inr 0, Sum.inr 0)` entry moves from `2` to `3/2`. -/
theorem C2_counterexample :
    (0 : ℚ) < 2 ∧ (0 : ℚ) < 1 ∧
    (compute_costs 1 (2 * 1) (fun _ : Fin 1 => scaleCC 2 ccEx)).1 0 ≠
      (compute_costs 1 1 (fun _ : Fin 1 => ccEx)).1 0 := by
  refine ⟨by norm_num, by norm_num, fun h => ?_⟩
  have h2 := congrFun (congrFun h (Sum.inr 0)) (Sum.inr 0)
  simp only [compute_costs, fCm_t, scaleCC, ccEx, inv_pol_S_one, PKLm] at h2
  norm_num [normInf_one_fin1, Matrix.add_apply, Matrix.smul_apply, Matrix.one_apply,
    Matrix.zero_apply, Matrix.fromBlocks_apply₂₂, smul_eq_mul] at h2

/-- Claim C2 (amended): scaling `Cm`, `cv` by `c > 0` and `eta > 0` by the same `c`
leaves `fcv` unchanged, and leaves `fCm` unchanged provided the small-gain
regularization term `K_regularization * norm(K[t], inf)` is zero; in general `fCm`
differs because the regularizer is divided by the scaled `eta` without being
scaled itself. -/
theorem C2_amended_homogeneity {dX dU T : ℕ} (Kreg c eta : ℚ) (inp : Fin T → CCInput dX dU)
    (t : Fin T) (hc : 0 < c) (heta : 0 < eta) :
    (compute_costs Kreg (c * eta) (fun s => scaleCC c (inp s))).2 t =
      (compute_costs Kreg eta inp).2 t ∧
    (Kreg * normInf (inp t).K = 0 →
      (compute_costs Kreg (c * eta) (fun s => scaleCC c (inp s))).1 t =
        (compute_costs Kreg eta inp).1 t) := by
  have hc0 : c ≠ 0 := ne_of_gt hc
  have he0 : eta ≠ 0 := ne_of_gt heta
  constructor
  · funext x
    simp only [compute_costs, fcv_t, scaleCC, Pi.smul_apply, Pi.add_apply, smul_eq_mul]
    field_simp
    ring
  · intro hreg
    ext x y
    simp only [compute_costs, fCm_t, scaleCC, hreg, Matrix.smul_apply, Matrix.add_apply,
      Matrix.smul_apply, zero_smul, Matrix.zero_apply, smul_eq_mul]
    field_simp
    ring

/-- Witness for C2 (amended) at `ccEx`, `K_regularization = 0`, `c = 2`, `eta = 1`. -/
theorem C2_witness :
    (0 : ℚ) < 2 ∧ (0 : ℚ) < 1 ∧
    ((compute_costs 0 (2 * 1) (fun _ : Fin 1 => scaleCC 2 ccEx)).2 0 =
      (compute_costs 0 1 (fun _ : Fin 1 => ccEx)).2 0) ∧
    ((0 : ℚ) * normInf ccEx.K = 0) ∧
    ((compute_costs 0 (2 * 1) (fun _ : Fin 1 => scaleCC 2 ccEx)).1 0 =
      (compute_costs 0 1 (fun _ : Fin 1 => ccEx)).1 0) :=
  ⟨two_pos, zero_lt_one,
   (C2_amended_homogeneity 0 2 1 (fun _ => ccEx) 0 two_pos zero_lt_one).1,
   zero_mul _,
   (C2_amended_homogeneity 0 2 1 (fun _ => ccEx) 0 two_pos zero_lt_one).2 (zero_mul _)⟩

/-- Entrywise description of `stepadjust`: condition `m` receives the globally
averaged improvement pair. -/
lemma stepadjust_getElem (rule : StepRule) (prev : List PrevCond) (cur : List CurCond)
    (min_step max_step : ℚ) (m : ℕ) (hm : m < cur.length) :
    (stepadjust rule prev cur min_step max_step)[m]? =
      some (set_new_mult (predicted_impr rule prev) (actual_impr rule prev cur)
        ((cur.get ⟨m, hm⟩).step_mult) min_step max_step) := by
  rw [stepadjust, List.getElem?_map, List.getElem?_eq_getElem hm]
  rfl

/-- Claim C10: `_stepadjust` computes a single `(predicted_impr, actual_impr)` pair
from condition-averaged costs and passes that identical pair to the multiplier
update of every condition `m`; no condition receives an improvement estimate of its
own. -/
theorem C10_shared_improvement_pair (rule : StepRule) (prev : List PrevCond)
    (cur : List CurCond) (min_step max_step : ℚ) (m : ℕ) (hm : m < cur.length) :
    (stepadjust rule prev cur min_step max_step)[m]? =
      some (set_new_mult (predicted_impr rule prev) (actual_impr rule prev cur)
        ((cur.get ⟨m, hm⟩).step_mult) min_step max_step) :=
  stepadjust_getElem rule prev cur min_step max_step m hm

/-- Witness for C10 at the concrete data `prevEx`/`curEx`. -/
theorem C10_witness :
    (0 : ℕ) < curEx.length ∧
    (stepadjust .mc prevEx curEx (1 / 10) 10)[0]? =
      some (set_new_mult (predicted_impr .mc prevEx) (actual_impr .mc prevEx curEx)
        ((curEx.get ⟨0, by decide⟩).step_mult) (1 / 10) 10) :=
  ⟨by decide, C10_shared_improvement_pair .mc prevEx curEx (1 / 10) 10 0 (by decide)⟩

/-- Counterexample to claim C4 as stated: in `prevEx`/`curEx` condition `0` has two
previous samples but one current sample, yet its multiplier is not left unchanged —
`_stepadjust` performs no sample-count comparison, and the update (`1 ↦ 1/2` here)
happens anyway. -/
theorem C4_counterexample :
    prevEx.map (fun p => p.cs.length) = [2] ∧
    curEx.map (fun c => c.cs.length) = [1] ∧
    curEx.map CurCond.step_mult = [1] ∧
    stepadjust .mc prevEx curEx (1 / 10) 10 = [1 / 2] ∧
    ([1 / 2] : List ℚ) ≠ [1] := by
  refine ⟨by decide, by decide, rfl, ?_, by norm_num⟩
  norm_num [stepadjust, predicted_impr, actual_impr, prev_mc_avg, prev_predicted_avg,
    cur_mc_avg, csMean, condMean, prevEx, curEx, set_new_mult]

/-- Claim C4 (amended): `_stepadjust` performs no sample-count comparison. Every
condition — including one whose sample count differs from the previous
iteration's — has its multiplier updated with the same condition-averaged
improvement pair, and the iteration is not aborted (the result covers all
conditions). -/
theorem C4_no_count_check (rule : StepRule) (prev : List PrevCond) (cur : List CurCond)
    (min_step max_step : ℚ) (m : ℕ) (hm : m < cur.length) (hmp : m < prev.length)
    (hne : (cur.get ⟨m, hm⟩).cs.length ≠ (prev.get ⟨m, hmp⟩).cs.length) :
    (stepadjust rule prev cur min_step max_step).length = cur.length ∧
    (stepadjust rule prev cur min_step max_step)[m]? =
      some (set_new_mult (predicted_impr rule prev) (actual_impr rule prev cur)
        ((cur.get ⟨m, hm⟩).step_mult) min_step max_step) :=
  ⟨by simp [stepadjust], stepadjust_getElem rule prev cur min_step max_step m hm⟩

/-- Witness for C4 (amended) at `prevEx`/`curEx`, whose sample counts differ. -/
theorem C4_witness :
    (0 : ℕ) < curEx.length ∧ (0 : ℕ) < prevEx.length ∧
    (curEx.get ⟨0, by decide⟩).cs.length ≠ (prevEx.get ⟨0, by decide⟩).cs.length ∧
    ((stepadjust .mc prevEx curEx (1 / 10) 10).length = curEx.length ∧
      (stepadjust .mc prevEx curEx (1 / 10) 10)[0]? =
        some (set_new_mult (predicted_impr .mc prevEx) (actual_impr .mc prevEx curEx)
          ((curEx.get ⟨0, by decide⟩).step_mult) (1 / 10) 10)) :=
  ⟨by decide, by decide, by decide,
   C4_no_count_check .mc prevEx curEx (1 / 10) 10 0 (by decide) (by decide) (by decide)⟩

/-- Claim C5: with `step_rule = mc`, condition-averaged previous Monte-Carlo cost
`10`, predicted cost `8` and current Monte-Carlo cost `9`, `_stepadjust` computes
`predicted_impr = 2` and `actual_impr = 1`, and the multiplier of every condition
shrinks (here: is halved, strictly below its previous value). `_set_new_mult` is
modelled from the spec, see `set_new_mult`. -/
theorem C5_mc_shrink (prev : List PrevCond) (cur : List CurCond) (min_step max_step : ℚ)
    (m : ℕ) (hm : m < cur.length)
    (h10 : prev_mc_avg prev = 10) (h8 : prev_predicted_avg prev = 8)
    (h9 : cur_mc_avg cur = 9)
    (hlo : min_step ≤ (cur.get ⟨m, hm⟩).step_mult / 2)
    (hhi : (cur.get ⟨m, hm⟩).step_mult / 2 ≤ max_step)
    (hpos : 0 < (cur.get ⟨m, hm⟩).step_mult) :
    predicted_impr .mc prev = 2 ∧ actual_impr .mc prev cur = 1 ∧
    (stepadjust .mc prev cur min_step max_step)[m]? =
      some ((cur.get ⟨m, hm⟩).step_mult / 2) ∧
    (cur.get ⟨m, hm⟩).step_mult / 2 < (cur.get ⟨m, hm⟩).step_mult := by
  have hp : predicted_impr .mc prev = 2 := by
    rw [predicted_impr, h10, h8]; norm_num
  have ha : actual_impr .mc prev cur = 1 := by
    rw [actual_impr, h10, h9]; norm_num
  have hupd : set_new_mult (predicted_impr .mc prev) (actual_impr .mc prev cur)
      ((cur.get ⟨m, hm⟩).step_mult) min_step max_step = (cur.get ⟨m, hm⟩).step_mult / 2 := by
    rw [set_new_mult, hp, ha, if_pos (by norm_num), max_eq_right hlo, min_eq_right hhi]
  refine ⟨hp, ha, ?_, half_lt_self hpos⟩
  rw [stepadjust_getElem .mc prev cur min_step max_step m hm, hupd]

/-- Witness for C5 at `prevEx`/`curEx` with multiplier bounds `[1/10, 10]`. -/
theorem C5_witness :
    (0 : ℕ) < curEx.length ∧
    prev_mc_avg prevEx = 10 ∧ prev_predicted_avg prevEx = 8 ∧ cur_mc_avg curEx = 9 ∧
    (1 : ℚ) / 10 ≤ (curEx.get ⟨0, by decide⟩).step_mult / 2 ∧
    (curEx.get ⟨0, by decide⟩).step_mult / 2 ≤ 10 ∧
    (0 : ℚ) < (curEx.get ⟨0, by decide⟩).step_mult ∧
    (predicted_impr .mc prevEx = 2 ∧ actual_impr .mc prevEx curEx = 1 ∧
      (stepadjust .mc prevEx curEx (1 / 10) 10)[0]? =
        some ((curEx.get ⟨0, by decide⟩).step_mult / 2) ∧
      (curEx.get ⟨0, by decide⟩).step_mult / 2 < (curEx.get ⟨0, by decide⟩).step_mult) := by
  have h10 : prev_mc_avg prevEx = 10 := by
    norm_num [prev_mc_avg, condMean, csMean, prevEx]
  have h8 : prev_predicted_avg prevEx = 8 := by
    norm_num [prev_predicted_avg, condMean, prevEx]
  have h9 : cur_mc_avg curEx = 9 := by
    norm_num [cur_mc_avg, condMean, csMean, curEx]
  have hlo : (1 : ℚ) / 10 ≤ (curEx.get ⟨0, by decide⟩).step_mult / 2 := by
    norm_num [curEx]
  have hhi : (curEx.get ⟨0, by decide⟩).step_mult / 2 ≤ 10 := by
    norm_num [curEx]
  have hpos : (0 : ℚ) < (curEx.get ⟨0, by decide⟩).step_mult := by
    norm_num [curEx]
  exact ⟨by decide, h10, h8, h9, hlo, hhi, hpos,
    C5_mc_shrink prevEx curEx (1 / 10) 10 0 (by decide) h10 h8 h9 hlo hhi hpos⟩

end GPS
